import Mathlib

/-!
Verification of the PlaylistConverter synchronization core.

This file shallowly embeds the synchronization and conflict-resolution
engine of the repository (src/conversion.py and
src/conflict_resolution_system.py) into Lean 4 and settles the frozen
claims about it.

Modelling conventions:
* Python strings are Lean `String`s; the string operations used by the
  code (strip, lower, startswith, substring search, ...) are implemented
  structurally over `List Char` so that every definition evaluates inside
  the kernel.
* File contents are modelled as `List String` of lines (without trailing
  newline characters), matching how the code reads files via
  `readlines()` and strips `"\n"` before processing.
* `time.time()` values and file modification times are modelled as `Int`.
* Timestamp strings produced by `datetime.now().strftime(...)` are passed
  in as parameters, since they are environment inputs.
* `hashlib.sha256(...).hexdigest()` is implemented bit-faithfully from
  FIPS 180-4 over `Nat` (words are kept reduced mod 2^32).
* Paths use the POSIX separator model of `os.path` (`normpath`,
  `basename`, `relpath`); `os.path.relpath` is a pure function only when
  both arguments are absolute, so `make_relative` computes the
  relative-path rewrite exactly on absolute inputs and otherwise falls
  back to the trimmed line, mirroring the code's blanket `except` fallback.
-/

/-! ## SHA-256 (the `hashlib.sha256(...).hexdigest()` used by `checksum`) -/

def w32 (n : Nat) : Nat := n % 4294967296

def rotr (n x : Nat) : Nat := w32 ((x >>> n) ||| (x <<< (32 - n)))

def sha256K : List Nat :=
  [1116352408, 1899447441, 3049323471, 3921009573, 961987163, 1508970993,
   2453635748, 2870763221, 3624381080, 310598401, 607225278, 1426881987,
   1925078388, 2162078206, 2614888103, 3248222580, 3835390401, 4022224774,
   264347078, 604807628, 770255983, 1249150122, 1555081692, 1996064986,
   2554220882, 2821834349, 2952996808, 3210313671, 3336571891, 3584528711,
   113926993, 338241895, 666307205, 773529912, 1294757372, 1396182291,
   1695183700, 1986661051, 2177026350, 2456956037, 2730485921, 2820302411,
   3259730800, 3345764771, 3516065817, 3600352804, 4094571909, 275423344,
   430227734, 506948616, 659060556, 883997877, 958139571, 1322822218,
   1537002063, 1747873779, 1955562222, 2024104815, 2227730452, 2361852424,
   2428436474, 2756734187, 3204031479, 3329325298]

def sha256H0 : List Nat :=
  [1779033703, 3144134277, 1013904242, 2773480762,
   1359893119, 2600822924, 528734635, 1541459225]

/-- Pad a byte list per FIPS 180-4: append 0x80, zeros to 56 mod 64, then
the bit length as 8 big-endian bytes. -/
def sha256Pad (msg : List Nat) : List Nat :=
  let l := msg.length
  let z := (119 - l % 64) % 64
  let bitLen := l * 8
  msg ++ [0x80] ++ List.replicate z 0 ++
    [w32 (bitLen >>> 56) % 256, (bitLen >>> 48) % 256, (bitLen >>> 40) % 256,
     (bitLen >>> 32) % 256, (bitLen >>> 24) % 256, (bitLen >>> 16) % 256,
     (bitLen >>> 8) % 256, bitLen % 256]

/-- Split into 64-byte chunks (fuel-driven structural recursion). -/
def chunks64Aux : Nat → List Nat → List (List Nat)
  | 0, _ => []
  | _, [] => []
  | fuel + 1, bs => bs.take 64 :: chunks64Aux fuel (bs.drop 64)

def chunks64 (bs : List Nat) : List (List Nat) := chunks64Aux bs.length bs

/-- 4 consecutive bytes to one big-endian 32-bit word. -/
def wordsBE : List Nat → List Nat
  | b0 :: b1 :: b2 :: b3 :: rest => (b0 <<< 24 ||| b1 <<< 16 ||| b2 <<< 8 ||| b3) :: wordsBE rest
  | _ => []

/-- Message-schedule extension, on the reversed word list (head = newest). -/
def sha256Extend : Nat → List Nat → List Nat
  | 0, rws => rws
  | n + 1, rws =>
    let w15 := rws.getD 14 0
    let w2 := rws.getD 1 0
    let s0 := (rotr 7 w15) ^^^ (rotr 18 w15) ^^^ (w15 >>> 3)
    let s1 := (rotr 17 w2) ^^^ (rotr 19 w2) ^^^ (w2 >>> 10)
    sha256Extend n (w32 (rws.getD 15 0 + s0 + rws.getD 6 0 + s1) :: rws)

/-- One compression round. State is [a,b,c,d,e,f,g,h]. -/
def sha256Round (st : List Nat) (kw : Nat × Nat) : List Nat :=
  match st with
  | [a, b, c, d, e, f, g, h] =>
    let S1 := (rotr 6 e) ^^^ (rotr 11 e) ^^^ (rotr 25 e)
    let ch := (e &&& f) ^^^ ((e ^^^ 0xffffffff) &&& g)
    let t1 := w32 (h + S1 + ch + kw.1 + kw.2)
    let S0 := (rotr 2 a) ^^^ (rotr 13 a) ^^^ (rotr 22 a)
    let maj := (a &&& b) ^^^ (a &&& c) ^^^ (b &&& c)
    let t2 := w32 (S0 + maj)
    [w32 (t1 + t2), a, b, c, w32 (d + t1), e, f, g]
  | st => st

/-- Compress one 64-byte chunk into the running hash. -/
def sha256Chunk (hs : List Nat) (chunk : List Nat) : List Nat :=
  let ws := (sha256Extend 48 (wordsBE chunk).reverse).reverse
  let st := (sha256K.zip ws).foldl sha256Round hs
  (hs.zip st).map fun p => w32 (p.1 + p.2)

def hexDigit (n : Nat) : Char :=
  if n < 10 then Char.ofNat (48 + n) else Char.ofNat (87 + n)

def toHex8 (n : Nat) : List Char :=
  [28, 24, 20, 16, 12, 8, 4, 0].map fun s => hexDigit ((n >>> s) % 16)

/-- SHA-256 of a byte sequence, rendered as lowercase hex. -/
def sha256Hex (msg : List Nat) : String :=
  String.mk (((chunks64 (sha256Pad msg)).foldl sha256Chunk sha256H0).flatMap toHex8)

/-- UTF-8 encoding of one character (code points per RFC 3629). -/
def utf8EncodeChar (c : Char) : List Nat :=
  let n := c.toNat
  if n < 0x80 then [n]
  else if n < 0x800 then [0xc0 ||| (n >>> 6), 0x80 ||| (n &&& 0x3f)]
  else if n < 0x10000 then
    [0xe0 ||| (n >>> 12), 0x80 ||| ((n >>> 6) &&& 0x3f), 0x80 ||| (n &&& 0x3f)]
  else
    [0xf0 ||| (n >>> 18), 0x80 ||| ((n >>> 12) &&& 0x3f),
     0x80 ||| ((n >>> 6) &&& 0x3f), 0x80 ||| (n &&& 0x3f)]

/-- The UTF-8 bytes of a string (Python `s.encode("utf-8")`). -/
def utf8Bytes (s : String) : List Nat := s.data.flatMap utf8EncodeChar

/-! ## Python string primitives, modelled structurally over `List Char` -/

/-- The whitespace characters stripped by Python's `str.strip()`. -/
def isPyWs (c : Char) : Bool :=
  c = ' ' ∨ c = '\t' ∨ c = '\n' ∨ c = '\x0d' ∨ c = '\x0b' ∨ c = '\x0c'

def chDropWhile (p : Char → Bool) : List Char → List Char
  | [] => []
  | c :: cs => if p c then chDropWhile p cs else c :: cs

/-- Python `str.strip()`. -/
def pyStrip (s : String) : String :=
  String.mk ((chDropWhile isPyWs ((chDropWhile isPyWs s.data.reverse).reverse)))

/-- Python `str.lstrip()`. -/
def pyLStrip (s : String) : String := String.mk (chDropWhile isPyWs s.data)

/-- Python `str.lower()` (ASCII range; all inputs in this development are ASCII). -/
def pyLower (s : String) : String := String.mk (s.data.map Char.toLower)

def chStartsWith : List Char → List Char → Bool
  | _, [] => true
  | [], _ :: _ => false
  | c :: cs, p :: ps => c = p ∧ chStartsWith cs ps

/-- Python `str.startswith(pre)`. -/
def pyStartsWith (s pre : String) : Bool := chStartsWith s.data pre.data

/-- Python `str.endswith(suf)`. -/
def pyEndsWith (s suf : String) : Bool := chStartsWith s.data.reverse suf.data.reverse

/-- Python `pat in s` (substring containment). -/
def chContainsSubstr : List Char → List Char → Bool
  | hay, pat =>
    if chStartsWith hay pat then true
    else match hay with
      | [] => false
      | _ :: t => chContainsSubstr t pat

/-- Python `s.split(sep)` for a one-character separator. -/
def chSplitOn (sep : Char) : List Char → List (List Char)
  | [] => [[]]
  | c :: cs =>
    match chSplitOn sep cs with
    | [] => [[c]]
    | h :: t => if c = sep then [] :: h :: t else (c :: h) :: t

def chIntercalate (sep : List Char) : List (List Char) → List Char
  | [] => []
  | [x] => x
  | x :: y :: t => x ++ sep ++ chIntercalate sep (y :: t)

/-- Python `s.replace(pat, rep)` for nonempty `pat` (fuel-driven scan). -/
def chReplaceAux (pat rep : List Char) : Nat → List Char → List Char
  | 0, hay => hay
  | fuel + 1, hay =>
    match hay with
    | [] => []
    | c :: cs =>
      if chStartsWith hay pat then rep ++ chReplaceAux pat rep fuel (hay.drop pat.length)
      else c :: chReplaceAux pat rep fuel cs

def pyReplace (s pat rep : String) : String :=
  if pat.data = [] then s
  else String.mk (chReplaceAux pat.data rep.data s.data.length s.data)

/-- `os.path.basename` in the POSIX separator model: everything after the
last `/`. -/
def posixBasename (s : String) : String :=
  String.mk ((chSplitOn '/' s.data).getLastD [])

/-- `posixpath.normpath`: collapse `.`, resolvable `..` and repeated
separators, preserving the `//`-special-case of POSIX. -/
def posixNormpath (p : String) : String :=
  if p.data = [] then "." else
  let isAbs := chStartsWith p.data ['/']
  let pfx : List Char :=
    if chStartsWith p.data ['/', '/'] ∧ ¬ chStartsWith p.data ['/', '/', '/'] then ['/', '/']
    else if isAbs then ['/'] else []
  let comps := (chSplitOn '/' p.data).filter (fun c => c ≠ [] ∧ c ≠ ['.'])
  let newComps := comps.foldl (fun acc comp =>
      if comp ≠ ['.', '.'] ∨ (¬ isAbs ∧ acc = []) ∨ (acc ≠ [] ∧ acc.getLastD [] = ['.', '.'])
      then acc ++ [comp]
      else acc.dropLast) []
  let res := pfx ++ chIntercalate ['/'] newComps
  if res = [] then "." else String.mk res

def commonPrefixLen : List (List Char) → List (List Char) → Nat
  | a :: as, b :: bs => if a = b then commonPrefixLen as bs + 1 else 0
  | _, _ => 0

/-- `posixpath.relpath(path, start)` restricted to absolute `path` and
`start` (on that domain `abspath` is `normpath` and the function is pure;
for relative arguments the real function consults the process CWD). -/
def relpathAbs (path start : String) : String :=
  let pl := (chSplitOn '/' (posixNormpath path).data).filter (· ≠ [])
  let sl := (chSplitOn '/' (posixNormpath start).data).filter (· ≠ [])
  let i := commonPrefixLen sl pl
  let rel := List.replicate (sl.length - i) ['.', '.'] ++ pl.drop i
  if rel = [] then "." else String.mk (chIntercalate ['/'] rel)

/-! ## src/conflict_resolution_system.py -/

inductive ConflictResolution where
  | pc_wins
  | smartphone_wins
  | merge_both
  | merge_no_duplicates
  | manual
  | skip
deriving DecidableEq, Repr

/-- `PlaylistEntry`: one playlist line plus its normalized form.
(The `file_size`/`last_modified` fields of the dataclass default to `None`
and are never read, so they are omitted.) -/
structure PlaylistEntry where
  path : String
  normalized_path : String
deriving DecidableEq, Repr

/-- `PlaylistEntry.normalize_path`. -/
def normalize_path (path : String) : String :=
  let clean := pyStrip path
  if pyStartsWith clean "#" then clean
  else
    let normalized := pyReplace (posixNormpath (pyLower clean)) "\x5c" "/"
    let filename := posixBasename normalized
    if filename ≠ "" then filename else normalized

/-- `PlaylistEntry(path=line)` with its `__post_init__`. -/
def mkPlaylistEntry (path : String) : PlaylistEntry :=
  ⟨path, normalize_path path⟩

structure PlaylistConflict where
  playlist_name : String
  pc_version : List PlaylistEntry
  smartphone_version : List PlaylistEntry
  pc_modified : Int
  smartphone_modified : Int
  conflict_type : String
deriving DecidableEq, Repr

/-- `PlaylistConflict.has_meaningful_changes`: the normalized-path sets of
the non-comment entries differ (Python compares the two `set`s). -/
def has_meaningful_changes (c : PlaylistConflict) : Bool :=
  let pc_content := (c.pc_version.filter (fun e => ¬ pyStartsWith e.path "#")).map (·.normalized_path)
  let sp_content := (c.smartphone_version.filter (fun e => ¬ pyStartsWith e.path "#")).map (·.normalized_path)
  ¬ (pc_content.all (fun x => sp_content.contains x) ∧ sp_content.all (fun x => pc_content.contains x))

/-- `ConflictResolver.parse_playlist_file`, over the file's lines (each
line `rstrip`ped of `\n\r`; empty lines dropped). -/
def parse_playlist_file (content : List String) : List PlaylistEntry :=
  ((content.map (fun l => String.mk ((chDropWhile (fun c => c = '\n' ∨ c = '\x0d') l.data.reverse).reverse))).filter
    (fun l => l ≠ "")).map mkPlaylistEntry

/-- The loop body of `ConflictResolver.remove_duplicates`; `seen` is the
accumulated set of normalized paths (modelled as a list, queried by
membership only). -/
def rdAux (seen : List String) : List PlaylistEntry → List PlaylistEntry
  | [] => []
  | e :: rest =>
    if pyStartsWith e.normalized_path "#" then e :: rdAux seen rest
    else if seen.contains e.normalized_path then rdAux seen rest
    else e :: rdAux (e.normalized_path :: seen) rest

/-- `ConflictResolver.remove_duplicates`: keep-first-occurrence, entries
whose normalized path starts with `#` always retained. -/
def remove_duplicates (entries : List PlaylistEntry) : List PlaylistEntry :=
  rdAux [] entries

/-- The `for entry in entries2` loop of `ConflictResolver.merge_playlists`;
`existing` is the `existing_paths` set. -/
def mergeAux (dedupe : Bool) (existing : List String) : List PlaylistEntry → List PlaylistEntry
  | [] => []
  | e :: rest =>
    if pyStartsWith e.path "#" then e :: mergeAux dedupe existing rest
    else if ¬ dedupe then e :: mergeAux dedupe existing rest
    else if existing.contains e.normalized_path then mergeAux dedupe existing rest
    else e :: mergeAux dedupe (e.normalized_path :: existing) rest

/-- `ConflictResolver.merge_playlists(entries1, entries2, remove_duplicates)`. -/
def merge_playlists (entries1 entries2 : List PlaylistEntry) (dedupe : Bool) : List PlaylistEntry :=
  let existing := (entries1.filter (fun e => ¬ pyStartsWith e.path "#")).map (·.normalized_path)
  let merged := entries1 ++ mergeAux dedupe existing entries2
  if dedupe then remove_duplicates merged else merged

def alistLookup {α : Type} (l : List (String × α)) (k : String) : Option α :=
  (l.find? (fun p => p.1 = k)).map (·.2)

def alistUpdate {α : Type} (l : List (String × α)) (k : String) (v : α) : List (String × α) :=
  if (l.find? (fun p => p.1 = k)).isSome then
    l.map (fun p => if p.1 = k then (k, v) else p)
  else l ++ [(k, v)]

/-- `ConflictResolver.resolve_conflict`.  `resolution?` is the optional
strategy argument; when absent the per-playlist rule map is consulted,
falling back to the resolver's default. -/
def resolve_conflict (conflict : PlaylistConflict) (resolution? : Option ConflictResolution)
    (conflict_rules : List (String × ConflictResolution))
    (default_resolution : ConflictResolution) : Option (List PlaylistEntry) :=
  let resolution := match resolution? with
    | some r => r
    | none => (alistLookup conflict_rules conflict.playlist_name).getD default_resolution
  match resolution with
  | .pc_wins => some conflict.pc_version
  | .smartphone_wins => some conflict.smartphone_version
  | .merge_both => some (merge_playlists conflict.pc_version conflict.smartphone_version false)
  | .merge_no_duplicates => some (merge_playlists conflict.pc_version conflict.smartphone_version true)
  | .skip => none
  | .manual => none

/-- The lines written by `ConflictResolver.write_resolved_playlist`. -/
def write_resolved_playlist_lines (entries : List PlaylistEntry) (ts : String) : List String :=
  ["# Resolved on " ++ ts,
   "# Merged playlist with conflict resolution",
   "# Total entries: " ++ toString (entries.filter (fun e => ¬ pyStartsWith e.path "#")).length]
  ++ entries.map (·.path)

/-! ## src/conversion.py -/

structure SyncConfig where
  delay : Int
  block_duration : Int
  max_backups : Nat
  conflict_resolution : ConflictResolution := .merge_no_duplicates
  auto_resolve_conflicts : Bool := true
  backup_before_resolve : Bool := true
deriving DecidableEq, Repr

/-- `strip_version`: `re.sub(r"(_v\d+)+(?=\.m3u$)", "", name)` — remove
repeated trailing `_v<digits>` groups immediately before `.m3u`. -/
def stripVOnce (rcs : List Char) : Option (List Char) :=
  let ds := rcs.takeWhile Char.isDigit
  match ds, rcs.drop ds.length with
  | [], _ => none
  | _ :: _, 'v' :: '_' :: r => some r
  | _, _ => none

def stripVAux : Nat → List Char → List Char
  | 0, r => r
  | fuel + 1, r =>
    match stripVOnce r with
    | some r' => stripVAux fuel r'
    | none => r

def strip_version (name : String) : String :=
  if pyEndsWith name ".m3u" then
    let base := name.data.take (name.data.length - 4)
    String.mk (stripVAux base.length base.reverse).reverse ++ ".m3u"
  else name

/-- `re.search(r"_v\d+\.m3u$", file)` — a version-suffixed `.m3u` name. -/
def isVersionedM3u (name : String) : Bool :=
  let r := name.data.reverse
  if chStartsWith r "u3m.".data then
    let r2 := r.drop 4
    let ds := r2.takeWhile Char.isDigit
    ds ≠ [] ∧ chStartsWith (r2.drop ds.length) ['v', '_']
  else false

/-- `make_relative(line, base_path)`.  Comments and blank lines pass
through stripped; other lines are rewritten relative to `base_path`.  The
rewrite is computed exactly when both the line and the base are absolute
POSIX paths; otherwise (where the real `os.path.relpath` would depend on
the process CWD, and where the code's bare `except` falls back) the
trimmed line is returned. -/
def make_relative (line base : String) : String :=
  let l := pyStrip line
  if pyStartsWith l "#" ∨ l = "" then l
  else if pyStartsWith l "/" ∧ pyStartsWith base "/" then
    pyReplace (posixNormpath (relpathAbs l base)) "\x5c" "/"
  else l

/-- `checksum(content)`: `hashlib.sha256(content.encode("utf-8")).hexdigest()`. -/
def checksum (content : String) : String := sha256Hex (utf8Bytes content)

def cleanTags : List String :=
  ["# Generated on", "# Source Folder", "# Target Folder", "# Resolved on", "# Merged playlist"]

/-- The filter condition of `clean_for_hash`'s generator expression. -/
def keepLine (l : String) : Bool :=
  pyStrip l ≠ "" ∧ ¬ cleanTags.any (fun tag => pyStartsWith (pyLStrip l) tag)

/-- `clean_for_hash(lines)`: join the stripped kept lines with `\n`. -/
def clean_for_hash (lines : List String) : String :=
  String.mk (chIntercalate ['\n'] (((lines.filter keepLine).map pyStrip).map (·.data)))

/-- `should_process(path, cfg)`: debounce on the path's basename against
the `recently_processed` map; the timestamp is refreshed only on
acceptance. -/
def should_process (path : String) (now : Int) (cfg : SyncConfig)
    (recently_processed : List (String × Int)) : Bool × List (String × Int) :=
  let name := posixBasename path
  match alistLookup recently_processed name with
  | some t =>
    if now - t < cfg.delay then (false, recently_processed)
    else (true, alistUpdate recently_processed name now)
  | none => (true, alistUpdate recently_processed name now)

/-! ### Filesystem and event model for the sync pass -/

/-- One file of a modelled folder: name, lines, modification time. -/
structure FSFile where
  name : String
  content : List String
  mtime : Int
deriving DecidableEq, Repr

/-- A filesystem side effect of the pass. -/
inductive WEvent where
  | write (folder name : String)
  | delete (folder name : String)
  | rename (folder oldName newName : String)
deriving DecidableEq, Repr

def WEvent.isWrite : WEvent → Bool
  | .write _ _ => true
  | _ => false

def fsLookup (fs : List FSFile) (name : String) : Option FSFile :=
  fs.find? (fun f => f.name = name)

/-- `open(path, "w")`: overwrite in place or create at the end. -/
def fsWrite (fs : List FSFile) (name : String) (content : List String) (now : Int) : List FSFile :=
  if (fs.find? (fun f => f.name = name)).isSome then
    fs.map (fun f => if f.name = name then { f with content := content, mtime := now } else f)
  else fs ++ [⟨name, content, now⟩]

/-- The folder roots `folders["pc"]` / `folders["smartphone"]`. -/
structure Roots where
  pcRoot : String
  smartphoneRoot : String
deriving DecidableEq, Repr

/-- The process state touched by the pass: the five folders and the
`recently_processed` map. -/
structure SyncSt where
  pc : List FSFile
  smartphone : List FSFile
  conversion : List FSFile
  backups : List FSFile
  conflicts : List FSFile
  recently_processed : List (String × Int)
deriving DecidableEq, Repr

/-- The sort key of `create_backup`'s `sorted(..., key=getmtime)`. -/
def mtimeLE (a b : FSFile) : Prop := a.mtime ≤ b.mtime

instance : DecidableRel mtimeLE := fun a b => inferInstanceAs (Decidable (a.mtime ≤ b.mtime))

instance : IsTotal FSFile mtimeLE := ⟨fun a b => Int.le_total a.mtime b.mtime⟩

instance : IsTrans FSFile mtimeLE := ⟨fun _ _ _ h1 h2 => Int.le_trans h1 h2⟩

/-- The filter of `create_backup`'s backup listing:
`f.startswith(clean_name + "_") and f.endswith(".m3u")`. -/
def backupMatch (clean_name : String) (f : FSFile) : Bool :=
  pyStartsWith f.name (clean_name ++ "_") ∧ pyEndsWith f.name ".m3u"

/-- `create_backup(clean_name, content, cfg)`: write the timestamped
backup, then list backups of this base name sorted ascending by mtime and
delete the oldest beyond `max_backups`.  (Python's `sorted` is stable;
`insertionSort` is the stable sort with the same result.) -/
def create_backup (clean_name : String) (content : List String) (cfg : SyncConfig)
    (tsFile : String) (now : Int) (store : List FSFile) : List FSFile × List WEvent :=
  let backup_name := clean_name ++ "_" ++ tsFile ++ ".m3u"
  let store1 := fsWrite store backup_name content now
  let backups := List.insertionSort mtimeLE (store1.filter (backupMatch clean_name))
  if backups.length > cfg.max_backups then
    let oldNames := (backups.take (backups.length - cfg.max_backups)).map (·.name)
    (store1.filter (fun f => ¬ oldNames.contains f.name),
     WEvent.write "Backups" backup_name :: oldNames.map (WEvent.delete "Backups"))
  else (store1, [WEvent.write "Backups" backup_name])

/-- `process_to_conversion(src_path, origin, cfg)` with
`dry_run=False, dev_mode=False`: debounce, strip old generated headers,
prepend fresh ones, rewrite lines relative to the origin root, back up,
and write the staged copy.  (The checksum the code computes here is only
logged, so it is not modelled.) -/
def process_to_conversion (src_name : String) (src_content : List String) (origin : String)
    (cfg : SyncConfig) (roots : Roots) (ts tsFile : String) (now : Int)
    (st : SyncSt) : SyncSt × List WEvent :=
  match should_process src_name now cfg st.recently_processed with
  | (false, rp) => ({ st with recently_processed := rp }, [])
  | (true, rp) =>
    let rel_folder := if origin = "PC" then roots.pcRoot else roots.smartphoneRoot
    let clean_name := strip_version src_name
    let droppedTags := ["# Generated on", "# Source Folder", "# Target Folder"]
    let filtered := src_content.filter (fun l => ¬ droppedTags.any (fun tag => pyStartsWith l tag))
    let converted :=
      ["# Generated on " ++ ts,
       "# Source Folder: " ++ origin,
       "# Target Folder: " ++ (if origin = "PC" then "Smartphone" else "PC")]
      ++ filtered.map (fun l => make_relative l rel_folder)
    let (bst, bev) := create_backup clean_name converted cfg tsFile now st.backups
    ({ st with
        recently_processed := rp,
        backups := bst,
        conversion := fsWrite st.conversion clean_name converted now },
     bev ++ [WEvent.write "Conversion" clean_name])

/-- The per-file state of `push_from_conversion`: the two device folders
and the two feedback-loop maps. -/
structure PushSt where
  pc : List FSFile
  smartphone : List FSFile
  recently_pushed_files : List (String × List (String × Int))
  recently_processed : List (String × Int)
deriving DecidableEq, Repr

/-- `push_from_conversion(conv_path, cfg)` with `dry_run=False`: scan the
staged lines for the first non-comment, non-blank line; `/PC/` inside it
or a leading `..` selects the smartphone folder, anything else the pc
folder; write the full staged content there and record the push.  If no
such line exists the loop runs out and nothing happens. -/
def push_from_conversion (conv_name : String) (conv_content : List String)
    (cfg : SyncConfig) (now : Int) (st : PushSt) : PushSt × List WEvent :=
  let clean_name := strip_version conv_name
  match conv_content.find? (fun l => ¬ pyStartsWith (pyStrip l) "#" ∧ pyStrip l ≠ "") with
  | none => (st, [])
  | some line =>
    let stripped := pyStrip line
    let folder_key :=
      if chContainsSubstr stripped.data "/PC/".data ∨ pyStartsWith stripped ".." then "smartphone"
      else "pc"
    let pushedSub := (alistLookup st.recently_pushed_files folder_key).getD []
    let st' :=
      { st with
        pc := if folder_key = "pc" then fsWrite st.pc clean_name conv_content now else st.pc,
        smartphone :=
          if folder_key = "smartphone" then fsWrite st.smartphone clean_name conv_content now
          else st.smartphone,
        recently_pushed_files :=
          alistUpdate st.recently_pushed_files folder_key
            (alistUpdate pushedSub clean_name (now + cfg.block_duration)),
        recently_processed := alistUpdate st.recently_processed clean_name now }
    (st', [WEvent.write folder_key clean_name])

/-- `convert_m3u8_to_m3u(folder_path)` with `dry_run=False`: rename every
`*.m3u8` file to `*.m3u` in place. -/
def convert_m3u8_to_m3u (folder : List FSFile) (folderLabel : String) : List FSFile × List WEvent :=
  folder.foldl (fun acc f =>
    if pyEndsWith f.name ".m3u8" then
      let newName := String.mk (f.name.data.take (f.name.data.length - 5)) ++ ".m3u"
      (acc.1 ++ [{ f with name := newName }], acc.2 ++ [WEvent.rename folderLabel f.name newName])
    else (acc.1 ++ [f], acc.2)) ([], [])

/-- `detect_conflict(pc_path, smartphone_path)`: parse both files, build
the conflict record, and return it only when `has_meaningful_changes`. -/
def detect_conflict (pcFile phFile : FSFile) : Option PlaylistConflict :=
  let conflict : PlaylistConflict :=
    { playlist_name := pcFile.name,
      pc_version := parse_playlist_file pcFile.content,
      smartphone_version := parse_playlist_file phFile.content,
      pc_modified := pcFile.mtime,
      smartphone_modified := phFile.mtime,
      conflict_type := "content_change" }
  if has_meaningful_changes conflict then some conflict else none

/-- `backup_conflict_versions(conflict)`: snapshot both sides into the
Conflicts folder before resolving. -/
def backup_conflict_versions (c : PlaylistConflict) (tsFile : String) (now : Int)
    (st : SyncSt) : SyncSt × List WEvent :=
  let base_name := pyReplace c.playlist_name ".m3u" ""
  let pc_backup_name := base_name ++ "_PC_" ++ tsFile ++ ".m3u"
  let phone_backup_name := base_name ++ "_PHONE_" ++ tsFile ++ ".m3u"
  let pcContent := "# PC version backup before conflict resolution" :: c.pc_version.map (·.path)
  let phContent := "# Smartphone version backup before conflict resolution" :: c.smartphone_version.map (·.path)
  ({ st with conflicts :=
      fsWrite (fsWrite st.conflicts pc_backup_name pcContent now) phone_backup_name phContent now },
   [WEvent.write "Conflicts" pc_backup_name, WEvent.write "Conflicts" phone_backup_name])

/-- `handle_single_conflict(conflict, cfg)` with `dry_run=False`.  The
module-level resolver has no per-playlist rules and the call passes
`cfg.conflict_resolution` explicitly. -/
def handle_single_conflict (c : PlaylistConflict) (cfg : SyncConfig) (ts tsFile : String)
    (now : Int) (st : SyncSt) : SyncSt × List WEvent :=
  let (st1, ev1) :=
    if cfg.backup_before_resolve then backup_conflict_versions c tsFile now st else (st, [])
  if cfg.auto_resolve_conflicts then
    match resolve_conflict c (some cfg.conflict_resolution) [] .merge_no_duplicates with
    | some resolved =>
      ({ st1 with
          conversion := fsWrite st1.conversion c.playlist_name (write_resolved_playlist_lines resolved ts) now,
          recently_processed := alistUpdate st1.recently_processed c.playlist_name now },
       ev1 ++ [WEvent.write "Conversion" c.playlist_name])
    | none => (st1, ev1)
  else (st1, ev1)

/-- The maps `pc_playlists` / `smartphone_playlists` of
`detect_and_handle_conflicts`: canonical name to the (last-listed) file
bearing it. -/
def listM3uMap (folder : List FSFile) : List (String × FSFile) :=
  folder.foldl (fun acc f =>
    if pyEndsWith f.name ".m3u" then alistUpdate acc (strip_version f.name) f else acc) []

/-- `detect_and_handle_conflicts(cfg)` with `dry_run=False`: detect a
conflict for every canonical playlist name present in both device
folders, then handle each.  (Python iterates the intersection as a hash
set; the model fixes the pc-folder order, which is immaterial since
handling distinct conflicts touches distinct files.)  Returns the new
state, the events, and the conflicting playlist names. -/
def detect_and_handle_conflicts (cfg : SyncConfig) (ts tsFile : String) (now : Int)
    (st : SyncSt) : SyncSt × List WEvent × List String :=
  let pcMap := listM3uMap st.pc
  let phMap := listM3uMap st.smartphone
  let conflicts := pcMap.filterMap (fun p =>
    match alistLookup phMap p.1 with
    | some phFile => detect_conflict p.2 phFile
    | none => none)
  let (st', evs) := conflicts.foldl (fun acc c =>
      let (st', e) := handle_single_conflict c cfg ts tsFile now acc.1
      (st', acc.2 ++ e)) (st, [])
  (st', evs, conflicts.map (·.playlist_name))

/-- The `for file in os.listdir(...)` body of
`initial_sync_with_comparison`: skip version-suffixed and
just-resolved files, compare the content hash against the staged copy,
and reconcile when they differ or no staged copy exists. -/
def syncFolder (files : List FSFile) (label : String) (conflict_files : List String)
    (cfg : SyncConfig) (roots : Roots) (ts tsFile : String) (now : Int)
    (st : SyncSt) : SyncSt × List WEvent :=
  files.foldl (fun acc f =>
    if pyEndsWith f.name ".m3u" ∧ ¬ isVersionedM3u f.name then
      if conflict_files.contains f.name then acc
      else
        let reconcile := fun (_ : Unit) =>
          let (st', e) := process_to_conversion f.name f.content label cfg roots ts tsFile now acc.1
          (st', acc.2 ++ e)
        match fsLookup acc.1.conversion (strip_version f.name) with
        | some convFile =>
          if checksum (clean_for_hash f.content) = checksum (clean_for_hash convFile.content) then acc
          else reconcile ()
        | none => reconcile ()
    else acc) (st, [])

/-- `initial_sync_with_comparison(cfg)` with
`dry_run=False, dev_mode=False` — the full sync pass: conflict
detection/handling first, then the legacy-extension rename, then the
hash-gated per-file reconciliation over the smartphone and pc folders. -/
def initial_sync_with_comparison (cfg : SyncConfig) (roots : Roots) (ts tsFile : String)
    (now : Int) (st : SyncSt) : SyncSt × List WEvent :=
  let (st1, ev1, conflict_files) := detect_and_handle_conflicts cfg ts tsFile now st
  let (pcFolder, ev2) := convert_m3u8_to_m3u st1.pc "pc"
  let (phFolder, ev3) := convert_m3u8_to_m3u st1.smartphone "smartphone"
  let st2 := { st1 with pc := pcFolder, smartphone := phFolder }
  let (st3, ev4) := syncFolder st2.smartphone "Smartphone" conflict_files cfg roots ts tsFile now st2
  let (st4, ev5) := syncFolder st3.pc "PC" conflict_files cfg roots ts tsFile now st3
  (st4, ev1 ++ ev2 ++ ev3 ++ ev4 ++ ev5)

/-- The entry count the code reports:
`len([e for e in entries if not e.path.startswith('#')])`. -/
def content_count (entries : List PlaylistEntry) : Nat :=
  (entries.filter (fun e => ¬ pyStartsWith e.path "#")).length

/-! ## Sanity checks of the embedding -/

example : sha256Hex (utf8Bytes "abc") =
    "ba7816bf8f01cfea414140de5dae2223b00361a396177a9cb410ff61f20015ad" := by decide

example : pyStrip "  # x \t" = "# x" := by decide

example : posixNormpath "/a//b/../c/./d" = "/a/c/d" := by decide

example : relpathAbs "/Music/SongA.mp3" "/PC" = "../Music/SongA.mp3" := by decide

example : posixBasename "/a/b/c.mp3" = "c.mp3" := by decide

example : pyReplace "A.m3u" ".m3u" "" = "A" := by decide

example : normalize_path "C:\x5cMusic\x5cSongA.MP3" = "songa.mp3" := by decide

example : normalize_path "# comment" = "# comment" := by decide

example : strip_version "MyMix_v2_v5.m3u" = "MyMix.m3u" := by decide

example : isVersionedM3u "A_v2.m3u" = true ∧ isVersionedM3u "A.m3u" = false := by decide

example : remove_duplicates [mkPlaylistEntry "a.mp3", mkPlaylistEntry "A.MP3"] =
    [mkPlaylistEntry "a.mp3"] := by decide

/-! ## Helper lemmas -/

theorem rdAux_rdAux : ∀ (l : List PlaylistEntry) (seen : List String),
    rdAux seen (rdAux seen l) = rdAux seen l := by
  intro l
  induction l with
  | nil => intro seen; rfl
  | cons e rest ih =>
    intro seen
    by_cases h1 : pyStartsWith e.normalized_path "#"
    · simp [rdAux, h1, ih]
    · by_cases h2 : e.normalized_path ∈ seen
      · simp [rdAux, h1, h2, ih]
      · simp [rdAux, h1, h2, ih]

theorem mergeAux_false (ex : List String) (l : List PlaylistEntry) :
    mergeAux false ex l = l := by
  induction l with
  | nil => rfl
  | cons e rest ih => by_cases h : pyStartsWith e.path "#" <;> simp [mergeAux, h, ih]

/-- Entries kept by `rdAux` whose normalized path is not a comment were
not in the incoming `seen` set. -/
theorem rdAux_mem_not_seen : ∀ (l : List PlaylistEntry) (seen : List String)
    (e : PlaylistEntry), e ∈ rdAux seen l → pyStartsWith e.normalized_path "#" = false →
    e.normalized_path ∉ seen := by
  intro l
  induction l with
  | nil => intro seen e he; simp [rdAux] at he
  | cons a rest ih =>
    intro seen e he hc
    by_cases h1 : pyStartsWith a.normalized_path "#"
    · simp only [rdAux, h1, if_true, List.mem_cons] at he
      cases he with
      | inl h => subst h; simp [h1] at hc
      | inr h => exact ih seen e h hc
    · by_cases h2 : a.normalized_path ∈ seen
      · simp only [rdAux, h1] at he
        rw [if_neg (by simp [h1]), if_pos (by simp [h2])] at he
        exact ih seen e he hc
      · simp only [rdAux, h1] at he
        rw [if_neg (by simp [h1]), if_neg (by simp [h2])] at he
        cases he with
        | head => exact h2
        | tail _ h =>
          have := ih _ e h hc
          simp only [List.mem_cons, not_or] at this
          exact this.2

/-- The output of `rdAux` never holds two entries with equal normalized
paths unless that normalized path is a comment. -/
theorem rdAux_pairwise : ∀ (l : List PlaylistEntry) (seen : List String),
    (rdAux seen l).Pairwise (fun x y =>
      pyStartsWith x.normalized_path "#" = false →
      pyStartsWith y.normalized_path "#" = false →
      x.normalized_path ≠ y.normalized_path) := by
  intro l
  induction l with
  | nil => intro seen; simp [rdAux]
  | cons a rest ih =>
    intro seen
    by_cases h1 : pyStartsWith a.normalized_path "#"
    · simp only [rdAux, h1, if_true]
      refine List.Pairwise.cons ?_ (ih seen)
      intro b _ ha _
      rw [h1] at ha; cases ha
    · by_cases h2 : a.normalized_path ∈ seen
      · simp only [rdAux, h1] at *
        rw [if_neg h1, if_pos (by simp [h2])]
        exact ih seen
      · simp only [rdAux, h1] at *
        rw [if_neg h1, if_neg (by simp [h2])]
        refine List.Pairwise.cons ?_ (ih _)
        intro b hb _ hbn
        have := rdAux_mem_not_seen rest _ b hb hbn
        simp only [List.mem_cons, not_or] at this
        exact fun h => this.1 h.symm

theorem chDropWhile_append (p : Char → Bool) (m n : List Char) :
    chDropWhile p (m ++ n) =
      if chDropWhile p m = [] then chDropWhile p n else chDropWhile p m ++ n := by
  induction m with
  | nil => simp [chDropWhile]
  | cons c m' ih =>
    by_cases hc : p c
    · simpa [chDropWhile, hc] using ih
    · simp [chDropWhile, hc]

/-- Stripping surrounding whitespace never un-comments a line: if a line
starts with `#`, so does its stripped form. -/
theorem pyStrip_hash (s : String) (h : pyStartsWith s "#" = true) :
    pyStartsWith (pyStrip s) "#" = true := by
  have hdata : ("#" : String).data = ['#'] := rfl
  rcases hd : s.data with - | ⟨c, cs⟩
  · rw [pyStartsWith, hd, hdata] at h
    simp [chStartsWith] at h
  · rw [pyStartsWith, hd, hdata] at h
    have hc : c = '#' := by
      cases hcs : chStartsWith (c :: cs) ['#']
      · rw [hcs] at h; cases h
      · simpa [chStartsWith] using hcs
    subst hc
    show chStartsWith (pyStrip s).data ['#'] = true
    rw [pyStrip, hd]
    rw [List.reverse_cons, chDropWhile_append]
    by_cases hrev : chDropWhile isPyWs cs.reverse = []
    · simp [hrev, chDropWhile, isPyWs, chStartsWith]
    · simp only [hrev, if_false]
      rw [List.reverse_append]
      simp [chDropWhile, isPyWs, chStartsWith]

theorem filter_sublist_mono {α : Type} (l : List α) (p q : α → Bool)
    (h : ∀ a ∈ l, p a = true → q a = true) : List.Sublist (l.filter p) (l.filter q) := by
  induction l with
  | nil => simp
  | cons a t ih =>
    have iht := ih (fun x hx => h x (List.mem_cons_of_mem a hx))
    by_cases hp : p a
    · rw [List.filter_cons_of_pos hp, List.filter_cons_of_pos (h a (List.mem_cons_self a t) hp)]
      exact iht.cons₂ a
    · rw [List.filter_cons_of_neg hp]
      by_cases hq : q a
      · rw [List.filter_cons_of_pos hq]; exact iht.cons a
      · rw [List.filter_cons_of_neg hq]; exact iht

/-- `rdAux` is the identity on lists whose non-comment normalized paths
are fresh and duplicate-free. -/
theorem rdAux_id : ∀ (l : List PlaylistEntry) (seen : List String),
    (∀ e ∈ l, pyStartsWith e.normalized_path "#" = false → e.normalized_path ∉ seen) →
    ((l.filter (fun e => ¬ pyStartsWith e.normalized_path "#")).map (·.normalized_path)).Nodup →
    rdAux seen l = l := by
  intro l
  induction l with
  | nil => intros; rfl
  | cons a rest ih =>
    intro seen hseen hnd
    by_cases h1 : pyStartsWith a.normalized_path "#"
    · rw [List.filter_cons_of_neg (by simp [h1])] at hnd
      simp only [rdAux, h1, if_true]
      rw [ih seen (fun e he hne => hseen e (List.mem_cons_of_mem a he) hne) hnd]
    · rw [List.filter_cons_of_pos (by simp [h1]), List.map_cons, List.nodup_cons] at hnd
      have hna : a.normalized_path ∉ seen :=
        hseen a (List.mem_cons_self _ _) (by simpa using h1)
      simp only [rdAux]
      rw [if_neg h1, if_neg (by simp [hna])]
      have hrest : ∀ e ∈ rest, pyStartsWith e.normalized_path "#" = false →
          e.normalized_path ∉ a.normalized_path :: seen := by
        intro e he hne
        simp only [List.mem_cons, not_or]
        refine ⟨fun heq => hnd.1 ?_, hseen e (List.mem_cons_of_mem a he) hne⟩
        rw [← heq]
        exact List.mem_map_of_mem _ (List.mem_filter.2 ⟨he, by simp [hne]⟩)
      rw [ih (a.normalized_path :: seen) hrest hnd.2]

/-- The append loop of `merge_playlists` with deduplication keeps every
entry when the incoming list's non-comment normalized paths are fresh and
duplicate-free. -/
theorem mergeAux_all : ∀ (l : List PlaylistEntry) (ex : List String),
    (∀ b ∈ l, pyStartsWith b.path "#" = false → b.normalized_path ∉ ex) →
    ((l.filter (fun e => ¬ pyStartsWith e.path "#")).map (·.normalized_path)).Nodup →
    mergeAux true ex l = l := by
  intro l
  induction l with
  | nil => intros; rfl
  | cons b rest ih =>
    intro ex hex hnd
    by_cases h1 : pyStartsWith b.path "#"
    · rw [List.filter_cons_of_neg (by simp [h1])] at hnd
      simp only [mergeAux, h1, if_true]
      rw [ih ex (fun e he hne => hex e (List.mem_cons_of_mem b he) hne) hnd]
    · rw [List.filter_cons_of_pos (by simp [h1]), List.map_cons, List.nodup_cons] at hnd
      have hb : b.normalized_path ∉ ex := hex b (List.mem_cons_self _ _) (by simpa using h1)
      simp only [mergeAux]
      rw [if_neg h1, if_neg (by simp), if_neg (by simp [hb])]
      have hrest : ∀ e ∈ rest, pyStartsWith e.path "#" = false →
          e.normalized_path ∉ b.normalized_path :: ex := by
        intro e he hne
        simp only [List.mem_cons, not_or]
        refine ⟨fun heq => hnd.1 ?_, hex e (List.mem_cons_of_mem b he) hne⟩
        rw [← heq]
        exact List.mem_map_of_mem _ (List.mem_filter.2 ⟨he, by simp [hne]⟩)
      rw [ih (b.normalized_path :: ex) hrest hnd.2]

/-! ## Claims -/

/-- Claim C1 (refuted — code bug at the failing input): running the
full sync pass twice in succession with no external filesystem changes
between the runs is required to produce zero writes on the second run.
On a state where both devices hold divergent copies of `A.m3u`, the first
run resolves the conflict into the staging area but never changes the
device files, so the second run re-detects the same conflict and again
writes both conflict snapshots and the staged copy: three writes, not
zero.  (The first two conjuncts certify that the first run left both
device folders untouched, i.e. there were no external changes.) -/
theorem c1_second_pass_writes_again :
    let cfg : SyncConfig := { delay := 1, block_duration := 2, max_backups := 5 }
    let roots : Roots := ⟨"/PC", "/Phone"⟩
    let s0 : SyncSt := ⟨[⟨"A.m3u", ["x.mp3"], 0⟩], [⟨"A.m3u", ["y.mp3"], 0⟩], [], [], [], []⟩
    let run1 := initial_sync_with_comparison cfg roots "2024-01-01 10:00:00" "2024-01-01_10-00-00" 100 s0
    let run2 := initial_sync_with_comparison cfg roots "2024-01-01 10:05:00" "2024-01-01_10-05-00" 200 run1.1
    run1.1.pc = s0.pc ∧ run1.1.smartphone = s0.smartphone ∧
    run2.2 = [WEvent.write "Conflicts" "A_PC_2024-01-01_10-05-00.m3u",
              WEvent.write "Conflicts" "A_PHONE_2024-01-01_10-05-00.m3u",
              WEvent.write "Conversion" "A.m3u"] ∧
    run2.2.filter WEvent.isWrite ≠ [] := by decide

/-- Claim C2 (counterexample): a staged playlist whose lines are all
comments or blank is not pushed at all — `push_from_conversion` performs
no write, changes no state, and in particular never applies the claimed
"push to the non-origin device" fallback. -/
theorem c2_comment_only_push_dropped :
    push_from_conversion "A.m3u"
        ["# Generated on 2024-01-01 10:00:00", "", "# a comment"]
        { delay := 1, block_duration := 2, max_backups := 3 } 0
        ⟨[], [], [], []⟩ =
      (⟨[], [], [], []⟩, []) := by decide

/-- Claim C2 (amended): the push destination is decided solely by the first
non-comment, non-blank staged line — the smartphone folder if it contains
`/PC/` or starts with `..`, the pc folder otherwise (regardless of which
side originated the change); if the staged content has no such line, the
push is dropped with no write and no state change. -/
theorem c2_push_destination_characterization (conv_name : String) (conv_content : List String)
    (cfg : SyncConfig) (now : Int) (st : PushSt) :
    (push_from_conversion conv_name conv_content cfg now st).2 =
      (match conv_content.find? (fun l => ¬ pyStartsWith (pyStrip l) "#" ∧ pyStrip l ≠ "") with
       | none => []
       | some line =>
         [WEvent.write
           (if chContainsSubstr (pyStrip line).data "/PC/".data ∨ pyStartsWith (pyStrip line) ".."
            then "smartphone" else "pc")
           (strip_version conv_name)]) ∧
    (conv_content.find? (fun l => ¬ pyStartsWith (pyStrip l) "#" ∧ pyStrip l ≠ "") = none →
      push_from_conversion conv_name conv_content cfg now st = (st, [])) := by
  unfold push_from_conversion
  cases h : conv_content.find? (fun l => ¬ pyStartsWith (pyStrip l) "#" ∧ pyStrip l ≠ "") <;>
    simp [h]

/-- Claim C3 (counterexample): the line `"# c "` is a comment (it starts
with `#`), yet its normalized path is the stripped `"# c"`, not the
verbatim line — `normalizedPath ≠ rawPath` for comments carrying
surrounding whitespace. -/
theorem c3_comment_not_verbatim :
    pyStartsWith "# c " "#" = true ∧
    (mkPlaylistEntry "# c ").normalized_path ≠ (mkPlaylistEntry "# c ").path := by decide

/-- Claim C3 (amended): for every line whose stripped form is a comment,
`normalize_path` returns the *stripped* line (so it equals the raw line
exactly when the line carries no surrounding whitespace). -/
theorem c3_comment_normalizes_to_strip (line : String)
    (h : pyStartsWith (pyStrip line) "#" = true) :
    normalize_path line = pyStrip line := by
  simp [normalize_path, h]

theorem c3_comment_normalizes_to_strip_witness :
    pyStartsWith (pyStrip " # c ") "#" = true ∧ normalize_path " # c " = pyStrip " # c " :=
  ⟨by decide, c3_comment_normalizes_to_strip " # c " (by decide)⟩

/-- Claim C6 (counterexample): two distinct whitespace-indented comment
lines do not start with `#` (so they are non-comment entries in the data
model's `isComment` sense) yet share the normalized path `"# x"`, and
`merge_playlists(..., dedupe) keeps both — the result contains two
distinct non-comment entries with equal normalized paths. -/
theorem c6_indented_comment_duplicates_survive :
    merge_playlists [mkPlaylistEntry " # x", mkPlaylistEntry "  # x"] [] true =
      [mkPlaylistEntry " # x", mkPlaylistEntry "  # x"] ∧
    mkPlaylistEntry " # x" ≠ mkPlaylistEntry "  # x" ∧
    pyStartsWith (mkPlaylistEntry " # x").path "#" = false ∧
    pyStartsWith (mkPlaylistEntry "  # x").path "#" = false ∧
    (mkPlaylistEntry " # x").normalized_path = (mkPlaylistEntry "  # x").normalized_path := by
  decide

/-- Claim C6 (amended): in `merge_playlists(A, B, remove_duplicates=True)`
no two entries that are non-comments *in the normalized sense* (their
normalized path does not start with `#`) share a normalized path; the
counterexample shows the restriction to normalized-level comments is
necessary. -/
theorem c6_merge_dedupe_no_duplicate_content (A B : List PlaylistEntry) :
    (merge_playlists A B true).Pairwise (fun x y =>
      pyStartsWith x.normalized_path "#" = false →
      pyStartsWith y.normalized_path "#" = false →
      x.normalized_path ≠ y.normalized_path) := by
  unfold merge_playlists
  simp only [if_pos]
  exact rdAux_pairwise _ _

/-- Claim C7: `remove_duplicates` is idempotent on every entry list. -/
theorem c7_remove_duplicates_idempotent (entries : List PlaylistEntry) :
    remove_duplicates (remove_duplicates entries) = remove_duplicates entries :=
  rdAux_rdAux entries []

/-- Claim C9: merging without duplicate removal is exactly concatenation —
every entry of `B`, comment or duplicate alike, is appended in order
after all of `A`, and nothing is removed or reordered. -/
theorem c9_merge_no_dedupe_is_append (A B : List PlaylistEntry) :
    merge_playlists A B false = A ++ B := by
  simp [merge_playlists, mergeAux_false]

/-- Claim C10: when a filename was last *accepted* less than `delay`
seconds ago, `should_process` returns `False` and leaves the
`recently_processed` map entirely unchanged — the debounce timestamp is
refreshed only on acceptance. -/
theorem c10_debounce_frame (path : String) (now : Int) (cfg : SyncConfig)
    (rp : List (String × Int)) (t : Int)
    (hlast : alistLookup rp (posixBasename path) = some t)
    (hrecent : now - t < cfg.delay) :
    should_process path now cfg rp = (false, rp) := by
  simp [should_process, hlast, hrecent]

theorem c10_debounce_frame_witness :
    alistLookup [("A.m3u", (10 : Int))] (posixBasename "/Phone/A.m3u") = some 10 ∧
    (11 : Int) - 10 < ({ delay := 5, block_duration := 2, max_backups := 3 } : SyncConfig).delay ∧
    should_process "/Phone/A.m3u" 11 { delay := 5, block_duration := 2, max_backups := 3 }
        [("A.m3u", 10)] = (false, [("A.m3u", 10)]) :=
  ⟨by decide, by decide,
   c10_debounce_frame "/Phone/A.m3u" 11 _ [("A.m3u", 10)] 10 (by decide) (by decide)⟩

/-- Claim C4 (counterexample): two playlists whose non-comment entries are
identical *after normalization* (`A.MP3` vs `a.mp3`) and that differ only
in their generated-header timestamps nevertheless have different content
fingerprints — `clean_for_hash` compares trimmed lines verbatim, not
normalized paths. -/
theorem c4_normalized_equal_entries_hash_differently :
    let L1 := ["# Generated on 2024-01-01 00:00:00", "A.MP3"]
    let L2 := ["# Generated on 2024-01-02 00:00:00", "a.mp3"]
    ((L1.filter (fun l => ¬ pyStartsWith l "#")).map normalize_path =
      (L2.filter (fun l => ¬ pyStartsWith l "#")).map normalize_path) ∧
    L1.filter (fun l => pyStartsWith (pyLStrip l) "# Generated on") ≠
      L2.filter (fun l => pyStartsWith (pyLStrip l) "# Generated on") ∧
    checksum (clean_for_hash L1) ≠ checksum (clean_for_hash L2) := by decide

/-- Claim C4 (amended): playlists whose *verbatim* line sequences agree
outside of volatile lines (blank lines and the five reserved metadata
headers, i.e. the lines `clean_for_hash` drops) fingerprint identically;
in particular regenerated header blocks never change the checksum. -/
theorem c4_header_insensitive_fingerprint (hdr1 hdr2 body : List String)
    (hv1 : ∀ l ∈ hdr1, keepLine l = false) (hv2 : ∀ l ∈ hdr2, keepLine l = false) :
    checksum (clean_for_hash (hdr1 ++ body)) = checksum (clean_for_hash (hdr2 ++ body)) := by
  have e1 : (hdr1 ++ body).filter keepLine = body.filter keepLine := by
    rw [List.filter_append, List.filter_eq_nil_iff.2 (fun a ha => by simp [hv1 a ha]),
      List.nil_append]
  have e2 : (hdr2 ++ body).filter keepLine = body.filter keepLine := by
    rw [List.filter_append, List.filter_eq_nil_iff.2 (fun a ha => by simp [hv2 a ha]),
      List.nil_append]
  unfold clean_for_hash
  rw [e1, e2]

theorem c4_header_insensitive_fingerprint_witness :
    (∀ l ∈ ["# Generated on 2024-01-01 10:00:00", "# Source Folder: PC"], keepLine l = false) ∧
    (∀ l ∈ ["# Generated on 2024-02-02 20:00:00", ""], keepLine l = false) ∧
    checksum (clean_for_hash (["# Generated on 2024-01-01 10:00:00", "# Source Folder: PC"] ++ ["a.mp3"])) =
      checksum (clean_for_hash (["# Generated on 2024-02-02 20:00:00", ""] ++ ["a.mp3"])) :=
  ⟨by decide, by decide,
   c4_header_insensitive_fingerprint _ _ ["a.mp3"] (by decide) (by decide)⟩

/-- Claim C5 (counterexample): with `A = [x.mp3, x.mp3]` and `B = []` no
normalized path occurs in both lists (the claim's only hypothesis holds
vacuously), yet `merge_playlists(A, B, remove_duplicates=True)` keeps a
single copy — the non-comment count is 1, not `|A| + |B| = 2`, because
the final deduplication pass also collapses `A`'s internal duplicates. -/
theorem c5_internal_duplicates_not_preserved :
    (∀ a ∈ [mkPlaylistEntry "x.mp3", mkPlaylistEntry "x.mp3"],
      ∀ b ∈ ([] : List PlaylistEntry), a.normalized_path ≠ b.normalized_path) ∧
    content_count (merge_playlists [mkPlaylistEntry "x.mp3", mkPlaylistEntry "x.mp3"] [] true) ≠
      content_count [mkPlaylistEntry "x.mp3", mkPlaylistEntry "x.mp3"] +
        content_count [] := by decide

/-- Claim C5 (amended): if additionally every entry's normalized path is
the one derived from its raw path and neither list contains two
non-comment entries with equal normalized paths internally, then the
deduplicating merge of cross-disjoint lists is exactly `A ++ B`, so every
non-comment entry of both lists survives and the counts add. -/
theorem c5_disjoint_merge_preserves_entries (A B : List PlaylistEntry)
    (hwf : ∀ e ∈ A ++ B, e.normalized_path = normalize_path e.path)
    (hAB : ∀ a ∈ A, ∀ b ∈ B, a.normalized_path ≠ b.normalized_path)
    (hA : ((A.filter (fun e => ¬ pyStartsWith e.path "#")).map (·.normalized_path)).Nodup)
    (hB : ((B.filter (fun e => ¬ pyStartsWith e.path "#")).map (·.normalized_path)).Nodup) :
    merge_playlists A B true = A ++ B ∧
    content_count (merge_playlists A B true) = content_count A + content_count B := by
  have hexB : ∀ b ∈ B, pyStartsWith b.path "#" = false →
      b.normalized_path ∉ (A.filter (fun e => ¬ pyStartsWith e.path "#")).map (·.normalized_path) := by
    intro b hb _ hmem
    obtain ⟨a, haf, hanorm⟩ := List.mem_map.1 hmem
    exact hAB a (List.mem_filter.1 haf).1 b hb hanorm
  have hmerge := mergeAux_all B _ hexB hB
  have hsub : List.Sublist
      ((A ++ B).filter (fun e => ¬ pyStartsWith e.normalized_path "#"))
      ((A ++ B).filter (fun e => ¬ pyStartsWith e.path "#")) := by
    apply filter_sublist_mono
    intro a ha hp
    by_cases hq : pyStartsWith a.path "#"
    · exfalso
      have hh : pyStartsWith (pyStrip a.path) "#" = true := pyStrip_hash _ hq
      have h2 : a.normalized_path = pyStrip a.path := by
        rw [hwf a ha]; simp [normalize_path, hh]
      rw [decide_eq_true_eq, h2, hh] at hp
      exact hp rfl
    · simpa using hq
  have hndAB : (((A ++ B).filter (fun e => ¬ pyStartsWith e.path "#")).map
      (·.normalized_path)).Nodup := by
    rw [List.filter_append, List.map_append, List.nodup_append]
    refine ⟨hA, hB, ?_⟩
    intro x hxA hxB
    obtain ⟨a, haf, rfl⟩ := List.mem_map.1 hxA
    obtain ⟨b, hbf, heq⟩ := List.mem_map.1 hxB
    exact hAB a (List.mem_filter.1 haf).1 b (List.mem_filter.1 hbf).1 heq.symm
  have hndnorm := List.Nodup.sublist (hsub.map (·.normalized_path)) hndAB
  have hrd : remove_duplicates (A ++ B) = A ++ B :=
    rdAux_id (A ++ B) [] (fun e _ _ => List.not_mem_nil _) hndnorm
  have hmain : merge_playlists A B true = A ++ B := by
    have hdef : merge_playlists A B true =
        remove_duplicates (A ++ mergeAux true
          ((A.filter (fun e => ¬ pyStartsWith e.path "#")).map (·.normalized_path)) B) := rfl
    rw [hdef, hmerge, hrd]
  refine ⟨hmain, ?_⟩
  rw [hmain]
  simp [content_count, List.filter_append]

theorem c5_disjoint_merge_preserves_entries_witness :
    (∀ e ∈ [mkPlaylistEntry "a.mp3"] ++ [mkPlaylistEntry "b.mp3"],
      e.normalized_path = normalize_path e.path) ∧
    (∀ a ∈ [mkPlaylistEntry "a.mp3"], ∀ b ∈ [mkPlaylistEntry "b.mp3"],
      a.normalized_path ≠ b.normalized_path) ∧
    (merge_playlists [mkPlaylistEntry "a.mp3"] [mkPlaylistEntry "b.mp3"] true =
        [mkPlaylistEntry "a.mp3"] ++ [mkPlaylistEntry "b.mp3"] ∧
      content_count (merge_playlists [mkPlaylistEntry "a.mp3"] [mkPlaylistEntry "b.mp3"] true) =
        content_count [mkPlaylistEntry "a.mp3"] + content_count [mkPlaylistEntry "b.mp3"]) :=
  ⟨by decide, by decide,
   c5_disjoint_merge_preserves_entries [mkPlaylistEntry "a.mp3"] [mkPlaylistEntry "b.mp3"]
     (by decide) (by decide) (by decide) (by decide)⟩

theorem filter_swap {α : Type} (p q : α → Bool) (l : List α) :
    (l.filter q).filter p = (l.filter p).filter q := by
  simp only [List.filter_filter]
  exact List.filter_congr (fun a _ => by rw [Bool.and_comm])

theorem fsWrite_map_name (store : List FSFile) (nm : String) (c : List String) (t : Int) :
    ((fsWrite store nm c t).map (·.name)) =
      if (store.find? (fun f => f.name = nm)).isSome then store.map (·.name)
      else store.map (·.name) ++ [nm] := by
  unfold fsWrite
  by_cases h : (store.find? (fun f => f.name = nm)).isSome
  · simp only [h, if_true, List.map_map]
    exact List.map_congr_left (fun f _ => by by_cases hf : f.name = nm <;> simp [hf])
  · simp [h]

theorem fsWrite_names_nodup (store : List FSFile) (nm : String) (c : List String) (t : Int)
    (h : (store.map (·.name)).Nodup) : ((fsWrite store nm c t).map (·.name)).Nodup := by
  rw [fsWrite_map_name]
  by_cases hf : (store.find? (fun f => f.name = nm)).isSome
  · simpa [hf] using h
  · rw [if_neg hf, List.nodup_append]
    refine ⟨h, List.nodup_singleton _, ?_⟩
    intro x hx hx1
    simp only [List.mem_singleton] at hx1
    obtain ⟨f, hfm, hfn⟩ := List.mem_map.1 hx
    have hnone : store.find? (fun f => f.name = nm) = none := by
      cases hfind : store.find? (fun f => f.name = nm)
      · rfl
      · rw [hfind] at hf; simp at hf
    have hne := List.find?_eq_none.1 hnone f hfm
    rw [hx1] at hfn
    simp [hfn] at hne


theorem contains_false_iff (l : List String) (s : String) :
    l.contains s = false ↔ s ∉ l := by
  constructor
  · intro h hm
    have he := List.elem_eq_true_of_mem hm
    rw [show List.elem s l = l.contains s from rfl, h] at he
    cases he
  · intro h
    cases hc : l.contains s
    · rfl
    · exact absurd (List.mem_of_elem_eq_true (show List.elem s l = true from hc)) h

/-- The retention step of `create_backup`: after pruning, at most `maxB`
files of the base name remain, and every pruned matching file is at least
as old as every survivor. -/
theorem retention_core (clean_name : String) (maxB : Nat) (store1 M S after : List FSFile)
    (hnd1 : (store1.map (·.name)).Nodup)
    (hM : M = store1.filter (backupMatch clean_name))
    (hS : S = List.insertionSort mtimeLE M)
    (hafter : after = if S.length > maxB then
        store1.filter (fun f => ¬ ((S.take (S.length - maxB)).map (·.name)).contains f.name)
      else store1) :
    (after.filter (backupMatch clean_name)).length ≤ maxB ∧
    (∀ g ∈ M, g.name ∉ after.map (·.name) →
      ∀ f ∈ after.filter (backupMatch clean_name), g.mtime ≤ f.mtime) := by
  have hperm : S.Perm M := hS ▸ List.perm_insertionSort mtimeLE M
  have hndM : (M.map (·.name)).Nodup := by
    rw [hM]
    exact List.Nodup.sublist
      ((List.filter_sublist store1).map (fun f : FSFile => f.name)) hnd1
  have hndS : (S.map (·.name)).Nodup := ((hperm.map (·.name)).nodup_iff).2 hndM
  have hsorted : List.Sorted mtimeLE S := hS ▸ List.sorted_insertionSort mtimeLE M
  by_cases hlen : S.length > maxB
  · -- pruning branch
    rw [hafter, if_pos hlen]
    set N := (S.take (S.length - maxB)).map (fun f : FSFile => f.name) with hN
    have hSplit : S.take (S.length - maxB) ++ S.drop (S.length - maxB) = S :=
      List.take_append_drop _ S
    have hndSplit : ((S.take (S.length - maxB)).map (·.name)).Nodup ∧
        ((S.drop (S.length - maxB)).map (·.name)).Nodup ∧
        ((S.take (S.length - maxB)).map (·.name)).Disjoint
          ((S.drop (S.length - maxB)).map (·.name)) := by
      rw [← List.nodup_append, ← List.map_append, hSplit]
      exact hndS
    have hko : ∀ f ∈ S.drop (S.length - maxB), N.contains f.name = false := by
      intro f hf
      rw [contains_false_iff, hN]
      intro hmem
      exact hndSplit.2.2 hmem (List.mem_map_of_mem _ hf)
    have hfo : (S.take (S.length - maxB)).filter (fun f => ¬ N.contains f.name) = [] := by
      rw [List.filter_eq_nil_iff]
      intro o ho
      have hmem : o.name ∈ N := by rw [hN]; exact List.mem_map_of_mem _ ho
      simp only [decide_eq_true_eq, Decidable.not_not]
      exact List.elem_eq_true_of_mem hmem
    have hfk : (S.drop (S.length - maxB)).filter (fun f => ¬ N.contains f.name) =
        S.drop (S.length - maxB) := by
      rw [List.filter_eq_self]
      intro f hf
      exact decide_eq_true (fun hcon => by rw [hko f hf] at hcon; cases hcon)
    have hmatch : (store1.filter (fun f => ¬ N.contains f.name)).filter
          (backupMatch clean_name) =
        M.filter (fun f => ¬ N.contains f.name) := by
      rw [filter_swap, ← hM]
    have hpermF : (M.filter (fun f => ¬ N.contains f.name)).Perm
        (S.drop (S.length - maxB)) := by
      have h1 := (hperm.symm).filter (fun f => ¬ N.contains f.name)
      have h2 : S.filter (fun f => ¬ N.contains f.name) = S.drop (S.length - maxB) := by
        conv_lhs => rw [← hSplit]
        rw [List.filter_append, hfo, hfk, List.nil_append]
      rw [h2] at h1
      exact h1
    have hkeeplen : (S.drop (S.length - maxB)).length = maxB := by
      rw [List.length_drop]
      omega
    constructor
    · rw [hmatch, hpermF.length_eq, hkeeplen]
    · intro g hgM hgnot f hfm
      rw [hmatch] at hfm
      have hgS : g ∈ S := (hperm.mem_iff).2 hgM
      rw [← hSplit, List.mem_append] at hgS
      have hfk' : f ∈ S.drop (S.length - maxB) := (hpermF.mem_iff).1 hfm
      cases hgS with
      | inr hg =>
        exfalso
        have hgafter : g ∈ store1.filter (fun f => ¬ N.contains f.name) := by
          refine List.mem_filter.2 ⟨List.mem_of_mem_filter (hM ▸ hgM), ?_⟩
          exact decide_eq_true (fun hcon => by rw [hko g hg] at hcon; cases hcon)
        exact hgnot (List.mem_map_of_mem _ hgafter)
      | inl hg =>
        have hsorted' : List.Pairwise mtimeLE
            (S.take (S.length - maxB) ++ S.drop (S.length - maxB)) := by
          rw [hSplit]; exact hsorted
        exact (List.pairwise_append.1 hsorted').2.2 g hg f hfk'
  · -- no pruning
    rw [hafter, if_neg hlen]
    constructor
    · rw [← hM, ← hperm.length_eq]
      omega
    · intro g hgM hgnot f hfm
      exact absurd (List.mem_map_of_mem _ (List.mem_of_mem_filter (hM ▸ hgM))) hgnot

/-- Claim C8: after every `create_backup` call on a store with distinct
file names, at most `maxBackups` files of that base name remain, and
every matching file that was present after the write but is gone
afterwards is no newer than any matching file that was kept (the kept
ones are the most recent by modification time).  In particular, with
`maxBackups = 3`, five consecutive backups of the same playlist leave
exactly the 3 most recent backup files. -/
theorem c8_backup_retention :
    (∀ (clean_name : String) (content : List String) (cfg : SyncConfig) (tsFile : String)
        (now : Int) (store : List FSFile),
      (store.map (·.name)).Nodup →
      ((create_backup clean_name content cfg tsFile now store).1.filter
          (backupMatch clean_name)).length ≤ cfg.max_backups ∧
      (∀ g ∈ (fsWrite store (clean_name ++ "_" ++ tsFile ++ ".m3u") content now).filter
            (backupMatch clean_name),
        g.name ∉ (create_backup clean_name content cfg tsFile now store).1.map (·.name) →
        ∀ f ∈ (create_backup clean_name content cfg tsFile now store).1.filter
            (backupMatch clean_name), g.mtime ≤ f.mtime)) ∧
    (create_backup "Rock.m3u" ["a.mp3"] { delay := 1, block_duration := 2, max_backups := 3 }
        "t5" 5
        ((create_backup "Rock.m3u" ["a.mp3"] { delay := 1, block_duration := 2, max_backups := 3 }
          "t4" 4
          ((create_backup "Rock.m3u" ["a.mp3"] { delay := 1, block_duration := 2, max_backups := 3 }
            "t3" 3
            ((create_backup "Rock.m3u" ["a.mp3"] { delay := 1, block_duration := 2, max_backups := 3 }
              "t2" 2
              ((create_backup "Rock.m3u" ["a.mp3"] { delay := 1, block_duration := 2, max_backups := 3 }
                "t1" 1 []).1)).1)).1)).1)).1 =
      [⟨"Rock.m3u_t3.m3u", ["a.mp3"], 3⟩, ⟨"Rock.m3u_t4.m3u", ["a.mp3"], 4⟩,
       ⟨"Rock.m3u_t5.m3u", ["a.mp3"], 5⟩] := by
  constructor
  · intro clean_name content cfg tsFile now store hnd
    have hnd1 := fsWrite_names_nodup store (clean_name ++ "_" ++ tsFile ++ ".m3u") content now hnd
    refine retention_core clean_name cfg.max_backups
      (fsWrite store (clean_name ++ "_" ++ tsFile ++ ".m3u") content now)
      ((fsWrite store (clean_name ++ "_" ++ tsFile ++ ".m3u") content now).filter
        (backupMatch clean_name))
      (List.insertionSort mtimeLE
        ((fsWrite store (clean_name ++ "_" ++ tsFile ++ ".m3u") content now).filter
          (backupMatch clean_name)))
      ((create_backup clean_name content cfg tsFile now store).1) hnd1 rfl rfl ?_
    simp only [create_backup]
    rw [apply_ite Prod.fst]
  · decide

theorem c8_backup_retention_witness :
    ((([] : List FSFile).map (·.name)).Nodup) ∧
    (((create_backup "Rock.m3u" ["a.mp3"]
          { delay := 1, block_duration := 2, max_backups := 3 } "t1" 1 []).1.filter
        (backupMatch "Rock.m3u")).length ≤
      ({ delay := 1, block_duration := 2, max_backups := 3 } : SyncConfig).max_backups ∧
    (∀ g ∈ (fsWrite [] ("Rock.m3u" ++ "_" ++ "t1" ++ ".m3u") ["a.mp3"] 1).filter
          (backupMatch "Rock.m3u"),
      g.name ∉ (create_backup "Rock.m3u" ["a.mp3"]
          { delay := 1, block_duration := 2, max_backups := 3 } "t1" 1 []).1.map (·.name) →
      ∀ f ∈ (create_backup "Rock.m3u" ["a.mp3"]
          { delay := 1, block_duration := 2, max_backups := 3 } "t1" 1 []).1.filter
          (backupMatch "Rock.m3u"), g.mtime ≤ f.mtime)) :=
  ⟨by decide,
   c8_backup_retention.1 "Rock.m3u" ["a.mp3"]
     { delay := 1, block_duration := 2, max_backups := 3 } "t1" 1 [] (by decide)⟩
